import Mathlib

/-
Verification of src/statplot.py (class Chi2Independence).

Shallow embedding: the class is modelled as a state record `Chi2State`
(one field per Python instance attribute, `Option` for attributes that may
not have been set yet), and each method as a function on that state.
Numeric cell values and residuals are embedded as rationals.

External collaborators (scipy.stats.chi2_contingency, the residual
accessors of statsmodels' `sm.stats.Table`, and scipy.stats.norm.ppf) are
not code of this repository; they are abstracted as parameters: a record
`Ext` of functions for the chi-squared engine and the residual accessors,
and a function `ppf : ℚ → ℚ` for the standard-normal quantile.  The one
piece of external behaviour the source's own docstring pins down — the
`shift_zeros` handling of `sm.stats.Table` ("If True and any cell count is
zero, add 0.5 to all values in the table") — is embedded concretely as
`shiftZeros`.
-/

namespace Statplot

/-- Matrix of rational values: the embedding of a 2-d numpy array /
DataFrame block of floats, row-major (list of rows). -/
abbrev Mat := List (List ℚ)

/-- The `crosstab` DataFrame of the constructor: row category labels
(the index), column category labels (the columns), and the dense
rectangular block of observed counts. -/
structure Crosstab where
  rowCats : List String
  colCats : List String
  data : Mat
deriving DecidableEq

/-- The 4-tuple returned by `scipy.stats.chi2_contingency`:
(chi2 statistic, p-value, degrees of freedom, expected frequencies). -/
structure Chi2Raw where
  statistic : ℚ
  p_value : ℚ
  dof : ℕ
  expected : Mat
deriving DecidableEq

/-- One row of the `df_freq` DataFrame built by `test_residuals`:
the two stacked index levels, the `Frequency` column and the `sig`
column. -/
structure FrequencyRecord where
  row_category : String
  column_category : String
  frequency : ℚ
  sig : Bool
deriving DecidableEq

/-- Errors that can surface from the embedded methods.
`upstream` embeds an exception raised inside the external chi-squared
engine and propagated unchanged; `attributeError` embeds a Python
`AttributeError` (an attribute read before any method set it);
`lengthMismatch` embeds the pandas `ValueError` on assigning a column of
the wrong length.  `invalidInput` is the `InvalidInputError` of the
spec's error taxonomy; the source never raises it (the source contains no
raise statement), the constructor exists only so that statements about it
can be written. -/
inductive Err where
  | upstream (msg : String)
  | attributeError
  | lengthMismatch
  | invalidInput
deriving DecidableEq

/-- The external collaborators of the class, abstracted: the scipy
chi-squared engine (which may fail, e.g. on a zero expected frequency)
and the two residual accessors of `sm.stats.Table` (total functions of
the — possibly zero-shifted — table stored in the `Table`). -/
structure Ext where
  chi2_contingency : Mat → Bool → Option ℚ → Except String Chi2Raw
  resid_pearson : Mat → Mat
  standardized_resids : Mat → Mat

/-- Instance state of a `Chi2Independence` object: the four constructor
attributes, then every attribute later methods may set (`none` = the
attribute does not exist yet, mirroring `hasattr`). -/
structure Chi2State where
  crosstab : Crosstab
  correction : Bool
  lambda_ : Option ℚ
  shift_zeros : Bool
  results_chi2_ : Option Chi2Raw := none
  _residuals : Option Mat := none
  _stdres : Option Mat := none
  results : Option (Chi2Raw × Mat × Mat) := none
  df_freq : Option (List FrequencyRecord) := none
deriving DecidableEq

/-- Embedding of `Chi2Independence.__init__` (src/statplot.py lines
40-44): store the four parameters, nothing else. -/
def init (crosstab : Crosstab) (correction : Bool) (lambda_ : Option ℚ)
    (shift_zeros : Bool) : Chi2State :=
  { crosstab := crosstab, correction := correction, lambda_ := lambda_,
    shift_zeros := shift_zeros }

/-- True when some cell of the matrix is exactly zero. -/
def hasZeroCell (t : Mat) : Bool :=
  t.any (fun row => row.any (fun v => v == 0))

/-- The documented `shift_zeros` behaviour of
`statsmodels.stats.contingency_tables.Table` (quoted in the source's own
docstring, src/statplot.py lines 34-37): if the flag is true and any cell
count is zero, add 0.5 to all values of the table; otherwise the table is
unchanged. -/
def shiftZeros (sz : Bool) (t : Mat) : Mat :=
  if sz && hasZeroCell t then t.map (fun row => row.map (fun v => v + 1/2)) else t

/-- Embedding of `Chi2Independence._get_residuals` (src/statplot.py lines
64-67): build `sm.stats.Table(self.crosstab, shift_zeros=...)` — whose
stored table is the crosstab, zero-shifted per `shiftZeros` — and store
its `resid_pearson` and `standardized_resids` on the object. -/
def _get_residuals (E : Ext) (st : Chi2State) : Chi2State :=
  let table := shiftZeros st.shift_zeros st.crosstab.data
  { st with _residuals := some (E.resid_pearson table),
            _stdres := some (E.standardized_resids table) }

/-- Embedding of `Chi2Independence.chi2_ind` (src/statplot.py lines
46-62): run `chi2_contingency` on the (unshifted) crosstab with the
stored options — an engine exception propagates unchanged, with no
attribute yet assigned — then `_get_residuals`, then
`self.results = self.results_chi2_ + (self._residuals,) + (self._stdres,)`
and return `self.results`. -/
def chi2_ind (E : Ext) (st : Chi2State) :
    Except Err (Chi2State × (Chi2Raw × Mat × Mat)) :=
  match E.chi2_contingency st.crosstab.data st.correction st.lambda_ with
  | .error msg => .error (Err.upstream msg)
  | .ok raw =>
    let st1 := _get_residuals E { st with results_chi2_ := some raw }
    match st1._residuals, st1._stdres with
    | some resid, some sres =>
      let res := (raw, resid, sres)
      .ok ({ st1 with results := some res }, res)
    | _, _ => .error Err.attributeError

/-- Embedding of `self.crosstab.stack().reset_index()` (src/statplot.py
line 112): the row-major flattening of the crosstab into one
(row label, column label, value) triple per cell — pandas `stack` pairs
each row label with every column label in order, outer level the rows. -/
def stackRecords (c : Crosstab) : List (String × String × ℚ) :=
  (c.rowCats.zip c.data).flatMap
    (fun p => (c.colCats.zip p.2).map (fun q => (p.1, q.1, q.2)))

/-- Embedding of `Chi2Independence._test_single_residual`
(src/statplot.py lines 69-73): true iff the residual is strictly below
`lower_z` or strictly above `upper_z` (argument order as in the source:
residual, upper_z, lower_z). -/
def _test_single_residual (residual upper_z lower_z : ℚ) : Bool :=
  if residual < lower_z ∨ residual > upper_z then true else false

/-- Embedding of the body of `test_residuals` after the auto-run guard
(src/statplot.py lines 98-115): flatten `self._stdres` row-major, set
`alpha = 0.05`, compute the critical z-values from the quantile function,
test every residual, stack the crosstab into `df_freq` and append the
`sig` column (pandas raises if the column length does not match), store
and return `df_freq`.  Reading `self._stdres` when no call has set it is
a Python `AttributeError`. -/
def test_residuals_core (ppf : ℚ → ℚ) (st : Chi2State) :
    Except Err (Chi2State × List FrequencyRecord) :=
  match st._stdres with
  | none => .error Err.attributeError
  | some sres =>
    let stdres_array := sres.flatten
    let alpha : ℚ := 5/100
    let upper_z := ppf (1 - alpha/2)
    let lower_z := ppf (alpha/2)
    let stdres_sig := stdres_array.map
      (fun residual => _test_single_residual residual upper_z lower_z)
    let base := stackRecords st.crosstab
    if stdres_sig.length = base.length then
      let recs := (base.zip stdres_sig).map
        (fun p => ⟨p.1.1, p.1.2.1, p.1.2.2, p.2⟩)
      .ok ({ st with df_freq := some recs }, recs)
    else .error Err.lengthMismatch

/-- Embedding of `Chi2Independence.test_residuals` (src/statplot.py lines
77-115): if `self.results` does not exist, auto-run `chi2_ind` first
(its exception propagates), then run the body on the resulting state.
The method takes no significance-level argument: `alpha` is fixed at
0.05 inside the body. -/
def test_residuals (ppf : ℚ → ℚ) (E : Ext) (st0 : Chi2State) :
    Except Err (Chi2State × List FrequencyRecord) :=
  match st0.results with
  | none =>
    match chi2_ind E st0 with
    | .error e => .error e
    | .ok p => test_residuals_core ppf p.1
  | some _ => test_residuals_core ppf st0

/-- Generalization of `test_residuals_core` that exposes the significance
level the source hardcodes, used to state that every call of the source's
method runs at exactly alpha = 0.05. -/
def test_residuals_core_with_alpha (alpha : ℚ) (ppf : ℚ → ℚ) (st : Chi2State) :
    Except Err (Chi2State × List FrequencyRecord) :=
  match st._stdres with
  | none => .error Err.attributeError
  | some sres =>
    let stdres_array := sres.flatten
    let upper_z := ppf (1 - alpha/2)
    let lower_z := ppf (alpha/2)
    let stdres_sig := stdres_array.map
      (fun residual => _test_single_residual residual upper_z lower_z)
    let base := stackRecords st.crosstab
    if stdres_sig.length = base.length then
      let recs := (base.zip stdres_sig).map
        (fun p => ⟨p.1.1, p.1.2.1, p.1.2.2, p.2⟩)
      .ok ({ st with df_freq := some recs }, recs)
    else .error Err.lengthMismatch

/-- `test_residuals` with the hardcoded level replaced by a parameter. -/
def test_residuals_with_alpha (alpha : ℚ) (ppf : ℚ → ℚ) (E : Ext)
    (st0 : Chi2State) : Except Err (Chi2State × List FrequencyRecord) :=
  match st0.results with
  | none =>
    match chi2_ind E st0 with
    | .error e => .error e
    | .ok p => test_residuals_core_with_alpha alpha ppf p.1
  | some _ => test_residuals_core_with_alpha alpha ppf st0

/-- Embedding of `Chi2Independence.plot` (src/statplot.py lines 117-157)
restricted to its effect on the object's state: if `self.df_freq` does
not exist, auto-run `test_residuals` (its exception propagates).  The
seaborn/matplotlib calls that follow (barplot, title, asterisks, savefig)
read `self.df_freq` but assign no attribute of the object, so they do not
appear in the state transition. -/
def plot (ppf : ℚ → ℚ) (E : Ext) (st0 : Chi2State) : Except Err Chi2State :=
  match st0.df_freq with
  | none =>
    match test_residuals ppf E st0 with
    | .error e => .error e
    | .ok p => .ok p.1
  | some _ => .ok st0

/-- The three public operations of the class, for stating properties of
arbitrary call sequences on one object. -/
inductive Op where
  | chi2Ind
  | testResiduals
  | plotOp
deriving DecidableEq

/-- Run one operation on the object's state; when the operation raises,
the Python object survives with its state — in particular its
`crosstab` — as it was (no method ever assigns `self.crosstab`). -/
def runOp (ppf : ℚ → ℚ) (E : Ext) (op : Op) (st : Chi2State) : Chi2State :=
  match op with
  | .chi2Ind =>
    match chi2_ind E st with
    | .ok p => p.1
    | .error _ => st
  | .testResiduals =>
    match test_residuals ppf E st with
    | .ok p => p.1
    | .error _ => st
  | .plotOp =>
    match plot ppf E st with
    | .ok s => s
    | .error _ => st

/-- Run a sequence of operations on the object's state. -/
def runOps (ppf : ℚ → ℚ) (E : Ext) (ops : List Op) (st : Chi2State) : Chi2State :=
  ops.foldl (fun s op => runOp ppf E op s) st

/-- The critical upper z-value of src/statplot.py line 105,
`norm.ppf(1 - alpha/2)` at the hardcoded `alpha = 0.05`. -/
def upper_zval (ppf : ℚ → ℚ) : ℚ := ppf (1 - 5/100/2)

/-- The critical lower z-value of src/statplot.py line 106,
`norm.ppf(alpha/2)` at the hardcoded `alpha = 0.05`. -/
def lower_zval (ppf : ℚ → ℚ) : ℚ := ppf (5/100/2)

/-- The `stdres_sig` vector of src/statplot.py line 109: the row-major
flattening of a standardized-residual matrix, each entry tested by
`_test_single_residual` against the alpha = 0.05 critical z-values. -/
def sigList (ppf : ℚ → ℚ) (sres : Mat) : List Bool :=
  sres.flatten.map
    (fun residual => _test_single_residual residual (upper_zval ppf) (lower_zval ppf))

/-- The `df_freq` rows of src/statplot.py lines 112-113: the stacked
crosstab triples, positionally paired with the significance vector. -/
def recsOf (c : Crosstab) (sigs : List Bool) : List FrequencyRecord :=
  ((stackRecords c).zip sigs).map (fun p => ⟨p.1.1, p.1.2.1, p.1.2.2, p.2⟩)

/-- The row-major list of all (row category, column category) pairs of a
crosstab, used to state completeness and order of the output records. -/
def pairList (c : Crosstab) : List (String × String) :=
  c.rowCats.flatMap (fun r => c.colCats.map (fun cc => (r, cc)))

/-- Concrete quantile stand-in for witnesses: any function of the right
type exercises the embedding, since the quantile is external. -/
def ppf0 : ℚ → ℚ := fun q => if q < 1/2 then -2 else 2

/-- Concrete chi-squared engine for witnesses: always succeeds, echoing
the table as the expected-frequency matrix; the residual accessors are
the identity. -/
def E0 : Ext :=
  { chi2_contingency := fun t _ _ => .ok ⟨1, 1/2, 1, t⟩,
    resid_pearson := id,
    standardized_resids := id }

/-- Concrete chi-squared engine for witnesses that fails like scipy does
on a degenerate table (zero expected frequency). -/
def Efail : Ext :=
  { chi2_contingency := fun _ _ _ =>
      .error "zero element in table of expected frequencies",
    resid_pearson := id,
    standardized_resids := id }

/-- Concrete 2x2 crosstab for witnesses. -/
def ct0 : Crosstab := ⟨["A", "B"], ["X", "Y"], [[5, 10], [1, 3]]⟩

/-- Concrete 1x2 crosstab with a zero cell for the zero-shift witness. -/
def ctZ : Crosstab := ⟨["A"], ["X", "Y"], [[0, 2]]⟩

/-- Concrete fresh object state for witnesses. -/
def st0 : Chi2State := init ct0 true none false

/-- Concrete object state with `shift_zeros = True` for witnesses. -/
def stZ : Chi2State := init ctZ true none true

/-- Concrete raw chi-squared output matching `E0` on `ctZ`. -/
def rawZ : Chi2Raw := ⟨1, 1/2, 1, [[0, 2]]⟩

/-- Concrete raw chi-squared output for cached-state witnesses. -/
def raw0 : Chi2Raw := ⟨1, 1/2, 1, [[5, 10], [1, 3]]⟩

/-- Concrete object state whose `Chi2Result` is already cached, for the
cached-path witnesses: all attributes `chi2_ind` would set are present. -/
def stC : Chi2State :=
  { st0 with results_chi2_ := some raw0,
             _residuals := some [[3, 0], [1, -5]],
             _stdres := some [[3, 0], [1, -5]],
             results := some (raw0, [[3, 0], [1, -5]], [[3, 0], [1, -5]]) }

/-- Default record used only as the `List.getD` fallback in statements
about positions that are in range. -/
def rec0 : FrequencyRecord := ⟨"", "", 0, false⟩

/-- The record sequence `test_residuals ppf0 E0 stC` produces (checked by
evaluation in the witnesses). -/
def recsC : List FrequencyRecord :=
  [⟨"A", "X", 5, true⟩, ⟨"A", "Y", 10, false⟩,
   ⟨"B", "X", 1, false⟩, ⟨"B", "Y", 3, true⟩]

/-- The object state after `test_residuals ppf0 E0 stC`. -/
def stC' : Chi2State := { stC with df_freq := some recsC }

/-- The record sequence `test_residuals ppf0 E0 st0` produces on the
fresh state (checked by evaluation in the witnesses). -/
def recs0F : List FrequencyRecord :=
  [⟨"A", "X", 5, true⟩, ⟨"A", "Y", 10, true⟩,
   ⟨"B", "X", 1, false⟩, ⟨"B", "Y", 3, true⟩]

/-- The object state after the auto-run `chi2_ind E0` on `st0`. -/
def st0chi : Chi2State :=
  { st0 with results_chi2_ := some raw0,
             _residuals := some [[5, 10], [1, 3]],
             _stdres := some [[5, 10], [1, 3]],
             results := some (raw0, [[5, 10], [1, 3]], [[5, 10], [1, 3]]) }

/-- The object state after `test_residuals ppf0 E0 st0`. -/
def st0F : Chi2State := { st0chi with df_freq := some recs0F }

/- ------------------------------------------------------------------
Helper lemmas shared by the claim theorems.
------------------------------------------------------------------ -/

/-- `_test_single_residual` returns true exactly on strict threshold
violation. -/
theorem tsr_true_iff (r u l : ℚ) :
    _test_single_residual r u l = true ↔ (r < l ∨ r > u) := by
  by_cases hc : r < l ∨ r > u <;> simp [_test_single_residual, hc]

/-- With ordered thresholds, a residual equal to a threshold tests
non-significant. -/
theorem tsr_boundary (r u l : ℚ) (hm : l ≤ u) (hr : r = l ∨ r = u) :
    _test_single_residual r u l = false := by
  have hc : ¬ (r < l ∨ r > u) := by
    rcases hr with hr | hr <;> subst hr
    · exact fun hx => hx.elim (lt_irrefl _) (fun hx => absurd hm (not_le.mpr hx))
    · exact fun hx => hx.elim (fun hx => absurd hm (not_le.mpr hx)) (lt_irrefl _)
  simp [_test_single_residual, hc]

/-- Closed-form characterization of the `test_residuals` body in terms of
the derived definitions `sigList` and `recsOf`. -/
theorem test_residuals_core_eq (ppf : ℚ → ℚ) (st : Chi2State) :
    test_residuals_core ppf st =
      match st._stdres with
      | none => .error Err.attributeError
      | some sres =>
        if (sigList ppf sres).length = (stackRecords st.crosstab).length then
          .ok ({ st with df_freq := some (recsOf st.crosstab (sigList ppf sres)) },
               recsOf st.crosstab (sigList ppf sres))
        else .error Err.lengthMismatch := by
  cases hs : st._stdres with
  | none => simp [test_residuals_core, hs]
  | some sres =>
    simp only [test_residuals_core, hs, sigList, recsOf, upper_zval, lower_zval]

/-- Success of the `test_residuals` body, unpacked. -/
theorem test_residuals_core_ok {ppf : ℚ → ℚ} {st st' : Chi2State}
    {recs : List FrequencyRecord}
    (h : test_residuals_core ppf st = .ok (st', recs)) :
    ∃ sres, st._stdres = some sres ∧
      (sigList ppf sres).length = (stackRecords st.crosstab).length ∧
      recs = recsOf st.crosstab (sigList ppf sres) ∧
      st' = { st with df_freq := some recs } := by
  rw [test_residuals_core_eq] at h
  cases hs : st._stdres with
  | none =>
    simp only [hs] at h
    exact absurd h (by simp)
  | some sres =>
    simp only [hs] at h
    by_cases hlen : (sigList ppf sres).length = (stackRecords st.crosstab).length
    · rw [if_pos hlen] at h
      injection h with h'
      injection h' with h1 h2
      subst h2
      exact ⟨sres, rfl, hlen, rfl, h1.symm⟩
    · rw [if_neg hlen] at h
      exact absurd h (by simp)

/-- `chi2_ind` never changes the stored crosstab. -/
theorem chi2_ind_ok_crosstab {E : Ext} {st : Chi2State}
    {p : Chi2State × (Chi2Raw × Mat × Mat)} (h : chi2_ind E st = .ok p) :
    p.1.crosstab = st.crosstab := by
  unfold chi2_ind at h
  cases he : E.chi2_contingency st.crosstab.data st.correction st.lambda_ with
  | error msg => rw [he] at h; exact absurd h (by simp)
  | ok raw =>
    rw [he] at h
    simp only [_get_residuals] at h
    injection h with h1
    rw [← h1]

/-- On success, `chi2_ind` leaves `self.results` set to the value it
returned. -/
theorem chi2_ind_ok_results {E : Ext} {st : Chi2State}
    {p : Chi2State × (Chi2Raw × Mat × Mat)} (h : chi2_ind E st = .ok p) :
    p.1.results = some p.2 := by
  unfold chi2_ind at h
  cases he : E.chi2_contingency st.crosstab.data st.correction st.lambda_ with
  | error msg => rw [he] at h; exact absurd h (by simp)
  | ok raw =>
    rw [he] at h
    simp only [_get_residuals] at h
    injection h with h1
    rw [← h1]

/-- A successful `test_residuals` call is a successful run of its body on
a state with the same crosstab (either the input state, or the input
state as updated by the auto-run of `chi2_ind`). -/
theorem test_residuals_ok_core {ppf : ℚ → ℚ} {E : Ext} {st0 st' : Chi2State}
    {recs : List FrequencyRecord}
    (h : test_residuals ppf E st0 = .ok (st', recs)) :
    ∃ st1, st1.crosstab = st0.crosstab ∧
      test_residuals_core ppf st1 = .ok (st', recs) := by
  unfold test_residuals at h
  cases hr : st0.results with
  | none =>
    rw [hr] at h
    cases hc : chi2_ind E st0 with
    | error e => rw [hc] at h; exact absurd h (by simp)
    | ok p =>
      rw [hc] at h
      exact ⟨p.1, chi2_ind_ok_crosstab hc, h⟩
  | some r =>
    rw [hr] at h
    exact ⟨st0, rfl, h⟩

/-- The `sig` column of `df_freq` is exactly the significance vector it
was assigned from. -/
theorem recsOf_map_sig (c : Crosstab) (sigs : List Bool)
    (h : sigs.length = (stackRecords c).length) :
    (recsOf c sigs).map (fun rec => rec.sig) = sigs := by
  unfold recsOf
  rw [List.map_map]
  have hco : ((fun rec : FrequencyRecord => rec.sig) ∘
      fun p : (String × String × ℚ) × Bool =>
        (⟨p.1.1, p.1.2.1, p.1.2.2, p.2⟩ : FrequencyRecord)) =
      (Prod.snd : (String × String × ℚ) × Bool → Bool) := rfl
  rw [hco, List.map_snd_zip _ _ h.le]

/-- The label/frequency part of `df_freq` is exactly the stacked
crosstab. -/
theorem recsOf_map_triple (c : Crosstab) (sigs : List Bool)
    (h : sigs.length = (stackRecords c).length) :
    (recsOf c sigs).map
        (fun rec => (rec.row_category, rec.column_category, rec.frequency)) =
      stackRecords c := by
  unfold recsOf
  rw [List.map_map]
  have hco : ((fun rec : FrequencyRecord =>
        (rec.row_category, rec.column_category, rec.frequency)) ∘
      fun p : (String × String × ℚ) × Bool =>
        (⟨p.1.1, p.1.2.1, p.1.2.2, p.2⟩ : FrequencyRecord)) =
      (Prod.fst : (String × String × ℚ) × Bool → String × String × ℚ) := rfl
  rw [hco, List.map_fst_zip _ _ h.ge]

/-- `df_freq` has one row per stacked cell. -/
theorem recsOf_length (c : Crosstab) (sigs : List Bool)
    (h : sigs.length = (stackRecords c).length) :
    (recsOf c sigs).length = (stackRecords c).length := by
  unfold recsOf
  rw [List.length_map, List.length_zip, h, min_self]

/-- Projecting the stacked triples of a rectangular table to label pairs
gives the row-major product of the category lists. -/
theorem stack_zip_pairs (cols : List String) (rows : List String) (data : Mat)
    (hlen : data.length = rows.length)
    (hrow : ∀ row ∈ data, row.length = cols.length) :
    ((rows.zip data).flatMap
        (fun p => (cols.zip p.2).map (fun q => (p.1, q.1, q.2)))).map
        (fun t => (t.1, t.2.1)) =
      rows.flatMap (fun r => cols.map (fun cc => (r, cc))) := by
  induction rows generalizing data with
  | nil =>
    cases data with
    | nil => rfl
    | cons row rest => simp at hlen
  | cons r rs ih =>
    cases data with
    | nil => simp at hlen
    | cons row rest =>
      have hr : row.length = cols.length := hrow row (by simp)
      have hrest : ∀ x ∈ rest, x.length = cols.length :=
        fun x hx => hrow x (by simp [hx])
      simp only [List.zip_cons_cons, List.flatMap_cons, List.map_append,
        ih rest (by simpa using hlen) hrest]
      congr 1
      rw [List.map_map]
      have h1 : ((fun t : String × String × ℚ => (t.1, t.2.1)) ∘
          fun q : String × ℚ => (r, q.1, q.2)) =
          ((fun cc : String => (r, cc)) ∘ (Prod.fst : String × ℚ → String)) := rfl
      rw [h1, ← List.map_map, List.map_fst_zip _ _ (le_of_eq hr.symm)]

/-- A rectangular table stacks to exactly rows x columns triples. -/
theorem stack_zip_length (cols : List String) (rows : List String) (data : Mat)
    (hlen : data.length = rows.length)
    (hrow : ∀ row ∈ data, row.length = cols.length) :
    ((rows.zip data).flatMap
        (fun p => (cols.zip p.2).map (fun q => (p.1, q.1, q.2)))).length =
      rows.length * cols.length := by
  induction rows generalizing data with
  | nil =>
    cases data with
    | nil => simp
    | cons row rest => simp at hlen
  | cons r rs ih =>
    cases data with
    | nil => simp at hlen
    | cons row rest =>
      have hr : row.length = cols.length := hrow row (by simp)
      have hrest : ∀ x ∈ rest, x.length = cols.length :=
        fun x hx => hrow x (by simp [hx])
      simp only [List.zip_cons_cons, List.flatMap_cons, List.length_append,
        List.length_map, List.length_zip,
        ih rest (by simpa using hlen) hrest]
      rw [hr, min_self, List.length_cons]
      ring

/-- `stackRecords` projected to label pairs is the row-major pair list. -/
theorem stackRecords_map_pair (c : Crosstab)
    (hlen : c.data.length = c.rowCats.length)
    (hrow : ∀ row ∈ c.data, row.length = c.colCats.length) :
    (stackRecords c).map (fun t => (t.1, t.2.1)) = pairList c :=
  stack_zip_pairs c.colCats c.rowCats c.data hlen hrow

/-- `stackRecords` of a rectangular table has rows x columns entries. -/
theorem stackRecords_length (c : Crosstab)
    (hlen : c.data.length = c.rowCats.length)
    (hrow : ∀ row ∈ c.data, row.length = c.colCats.length) :
    (stackRecords c).length = c.rowCats.length * c.colCats.length :=
  stack_zip_length c.colCats c.rowCats c.data hlen hrow

/-- With duplicate-free category lists, the row-major pair list has no
duplicate (row category, column category) pair. -/
theorem pairList_nodup (c : Crosstab) (hr : c.rowCats.Nodup)
    (hc : c.colCats.Nodup) : (pairList c).Nodup := by
  unfold pairList
  rw [List.nodup_flatMap]
  constructor
  · intro r _
    exact hc.map (fun a b hab => (Prod.mk.inj hab).2)
  · refine hr.imp ?_
    intro a b hab x hxa hxb
    obtain ⟨ca, _, hea⟩ := List.mem_map.mp hxa
    obtain ⟨cb, _, heb⟩ := List.mem_map.mp hxb
    exact hab (Prod.mk.inj (hea.trans heb.symm)).1

/- ------------------------------------------------------------------
Claim theorems.
------------------------------------------------------------------ -/

/-- C1: for every standardized-residual matrix and every cell, the
FrequencyRecord produced by `test_residuals` carries `sig = true` iff the
cell's residual (in row-major flattening order) is strictly below the
lower or strictly above the upper critical z-value; a residual exactly
equal to either threshold (with the thresholds ordered, as any quantile
function yields) is marked not significant. -/
theorem C1_sig_iff_strictly_outside
    (ppf : ℚ → ℚ) (E : Ext) (st st' : Chi2State) (recs : List FrequencyRecord)
    (hm : lower_zval ppf ≤ upper_zval ppf)
    (h : test_residuals ppf E st = .ok (st', recs)) :
    ∀ k, k < recs.length →
      (((recs.getD k rec0).sig = true ↔
        ((st'._stdres.getD []).flatten.getD k 0 < lower_zval ppf ∨
         (st'._stdres.getD []).flatten.getD k 0 > upper_zval ppf)) ∧
       (((st'._stdres.getD []).flatten.getD k 0 = lower_zval ppf ∨
         (st'._stdres.getD []).flatten.getD k 0 = upper_zval ppf) →
        (recs.getD k rec0).sig = false)) := by
  obtain ⟨st1, hct, hcore⟩ := test_residuals_ok_core h
  obtain ⟨sres, hs, hlen, hrecs, hst'⟩ := test_residuals_core_ok hcore
  have hsd : st'._stdres = some sres := by rw [hst']; exact hs
  have hsig : recs.map (fun rec => rec.sig) = sigList ppf sres := by
    rw [hrecs]; exact recsOf_map_sig st1.crosstab (sigList ppf sres) hlen
  have hlr : recs.length = sres.flatten.length := by
    have h1 := congrArg List.length hsig
    rw [List.length_map] at h1
    rw [h1]; unfold sigList; rw [List.length_map]
  intro k hk
  have hk2 : k < sres.flatten.length := hlr ▸ hk
  have hget : (recs.getD k rec0).sig =
      _test_single_residual (sres.flatten.getD k 0) (upper_zval ppf)
        (lower_zval ppf) := by
    rw [List.getD_eq_getElem recs rec0 hk, List.getD_eq_getElem _ _ hk2]
    have hkm : k < (recs.map (fun rec => rec.sig)).length := by
      rw [List.length_map]; exact hk
    have hks : k < (sigList ppf sres).length := by
      unfold sigList; rw [List.length_map]; exact hk2
    have h2 : (recs.map (fun rec => rec.sig)).getD k false =
        (sigList ppf sres).getD k false := by rw [hsig]
    rw [List.getD_eq_getElem _ _ hkm, List.getD_eq_getElem _ _ hks] at h2
    rw [List.getElem_map] at h2
    unfold sigList at h2
    rw [List.getElem_map] at h2
    exact h2
  rw [hsd]
  simp only [Option.getD_some]
  constructor
  · rw [hget]; exact tsr_true_iff _ _ _
  · intro hb; rw [hget]; exact tsr_boundary _ _ _ hm hb

/-- Concrete instantiation of C1 on a cached state. -/
theorem C1_sig_iff_strictly_outside_witness :
    lower_zval ppf0 ≤ upper_zval ppf0 ∧
    test_residuals ppf0 E0 stC = Except.ok (stC', recsC) ∧
    ((recsC.getD 0 rec0).sig = true ↔
      ((stC'._stdres.getD []).flatten.getD 0 0 < lower_zval ppf0 ∨
       (stC'._stdres.getD []).flatten.getD 0 0 > upper_zval ppf0)) := by
  have hm : lower_zval ppf0 ≤ upper_zval ppf0 := by
    norm_num [lower_zval, upper_zval, ppf0]
  have hok : test_residuals ppf0 E0 stC = Except.ok (stC', recsC) := by
    norm_num [test_residuals, test_residuals_core, chi2_ind, _get_residuals,
      shiftZeros, hasZeroCell, stackRecords, sigList, recsOf,
      _test_single_residual, upper_zval, lower_zval, ppf0, E0, stC, stC',
      recsC, st0, ct0, raw0, init]
  exact ⟨hm, hok,
    (C1_sig_iff_strictly_outside ppf0 E0 stC stC' recsC hm hok 0
      (by norm_num [recsC])).1⟩

/-- C2: on a rectangular crosstab, `test_residuals` returns one
FrequencyRecord per cell — the count equals rows x columns, the
(row category, column category) pairs are exactly the row-major product
of the category lists (each pair exactly once when the category lists
are duplicate-free) — and the records are in row-major flattening order,
each pairing the cell's observed frequency (the stacked crosstab) with
the significance flag computed from that cell's standardized residual
(the row-major `sigList` of the result's residual matrix). -/
theorem C2_one_record_per_cell_row_major
    (ppf : ℚ → ℚ) (E : Ext) (st0 st' : Chi2State) (recs : List FrequencyRecord)
    (hlen : st0.crosstab.data.length = st0.crosstab.rowCats.length)
    (hrow : ∀ row ∈ st0.crosstab.data, row.length = st0.crosstab.colCats.length)
    (h : test_residuals ppf E st0 = .ok (st', recs)) :
    recs.length = st0.crosstab.rowCats.length * st0.crosstab.colCats.length ∧
    recs.map (fun rec => (rec.row_category, rec.column_category)) =
      pairList st0.crosstab ∧
    (st0.crosstab.rowCats.Nodup → st0.crosstab.colCats.Nodup →
      (recs.map (fun rec => (rec.row_category, rec.column_category))).Nodup) ∧
    recs.map (fun rec => (rec.row_category, rec.column_category, rec.frequency)) =
      stackRecords st0.crosstab ∧
    ∃ sres, st'._stdres = some sres ∧
      recs.map (fun rec => rec.sig) = sigList ppf sres := by
  obtain ⟨st1, hct, hcore⟩ := test_residuals_ok_core h
  obtain ⟨sres, hs, hlens, hrecs, hst'⟩ := test_residuals_core_ok hcore
  rw [← hct] at hlen hrow ⊢
  have htr : recs.map
      (fun rec => (rec.row_category, rec.column_category, rec.frequency)) =
      stackRecords st1.crosstab := by
    rw [hrecs]; exact recsOf_map_triple _ _ hlens
  have hpair : recs.map (fun rec => (rec.row_category, rec.column_category)) =
      pairList st1.crosstab := by
    have hco : (fun rec : FrequencyRecord =>
        (rec.row_category, rec.column_category)) =
        ((fun t : String × String × ℚ => (t.1, t.2.1)) ∘
          (fun rec : FrequencyRecord =>
            (rec.row_category, rec.column_category, rec.frequency))) := rfl
    rw [hco, ← List.map_map, htr]
    exact stackRecords_map_pair st1.crosstab hlen hrow
  refine ⟨?_, hpair, ?_, htr, sres, ?_, ?_⟩
  · rw [hrecs, recsOf_length _ _ hlens]
    exact stackRecords_length st1.crosstab hlen hrow
  · intro hnr hnc
    rw [hpair]
    exact pairList_nodup st1.crosstab hnr hnc
  · rw [hst']; exact hs
  · rw [hrecs]; exact recsOf_map_sig _ _ hlens

/-- Concrete instantiation of C2 on a cached state. -/
theorem C2_one_record_per_cell_row_major_witness :
    test_residuals ppf0 E0 stC = Except.ok (stC', recsC) ∧
    recsC.length = stC.crosstab.rowCats.length * stC.crosstab.colCats.length ∧
    recsC.map (fun rec => (rec.row_category, rec.column_category)) =
      pairList stC.crosstab := by
  have hok : test_residuals ppf0 E0 stC = Except.ok (stC', recsC) := by
    norm_num [test_residuals, test_residuals_core, chi2_ind, _get_residuals,
      shiftZeros, hasZeroCell, stackRecords, sigList, recsOf,
      _test_single_residual, upper_zval, lower_zval, ppf0, E0, stC, stC',
      recsC, st0, ct0, raw0, init]
  have h := C2_one_record_per_cell_row_major ppf0 E0 stC stC' recsC
    (by norm_num [stC, st0, ct0, init]) (by norm_num [stC, st0, ct0, init]) hok
  exact ⟨hok, h.1, h.2.1⟩

/-- C3 (counterexample): on a concrete fresh object, the only possible
call of `test_residuals` — the method takes no significance-level
argument, `alpha` is fixed at 0.05 inside the body — succeeds with a
record sequence; it does not fail with `InvalidInputError`. -/
theorem C3_counterexample_call_succeeds :
    test_residuals ppf0 E0 st0 = Except.ok (st0F, recs0F) ∧
    Except.ok (st0F, recs0F) ≠
      (Except.error Err.invalidInput :
        Except Err (Chi2State × List FrequencyRecord)) := by
  constructor
  · norm_num [test_residuals, test_residuals_core, chi2_ind, _get_residuals,
      shiftZeros, hasZeroCell, stackRecords, sigList, recsOf,
      _test_single_residual, upper_zval, lower_zval, ppf0, E0, st0F, st0chi,
      recs0F, st0, ct0, raw0, init]
  · simp

/-- C3 (amended): `test_residuals` performs no significance-level
validation — it accepts no alpha argument, the level is fixed at 0.05 —
and no call of it ever fails with `InvalidInputError`, whatever the
quantile function, engine and object state. -/
theorem C3_amended_never_invalid_input (ppf : ℚ → ℚ) (E : Ext)
    (st0 : Chi2State) :
    test_residuals ppf E st0 ≠ Except.error Err.invalidInput := by
  intro hbad
  have hcore : ∀ st : Chi2State,
      test_residuals_core ppf st ≠ Except.error Err.invalidInput := by
    intro st hc
    rw [test_residuals_core_eq] at hc
    cases hs : st._stdres with
    | none => simp only [hs] at hc; simp at hc
    | some sres =>
      simp only [hs] at hc
      by_cases hl : (sigList ppf sres).length = (stackRecords st.crosstab).length
      · rw [if_pos hl] at hc; simp at hc
      · rw [if_neg hl] at hc; simp at hc
  unfold test_residuals at hbad
  cases hr : st0.results with
  | none =>
    rw [hr] at hbad
    cases hc : chi2_ind E st0 with
    | error e =>
      rw [hc] at hbad
      injection hbad with h1
      subst h1
      unfold chi2_ind at hc
      cases hE : E.chi2_contingency st0.crosstab.data st0.correction st0.lambda_ with
      | error msg => rw [hE] at hc; injection hc with h2; simp at h2
      | ok raw =>
        rw [hE] at hc
        simp only [_get_residuals] at hc
        simp at hc
    | ok p =>
      rw [hc] at hbad
      exact hcore p.1 hbad
  | some r =>
    rw [hr] at hbad
    exact hcore st0 hbad

/-- C4: the significance level of `test_residuals` is fixed: the method
takes no alpha parameter, and every invocation behaves exactly as the
alpha-parametrized generalization run at alpha = 0.05 = 5/100, for every
quantile function, engine and object state — the caller cannot change
the level. -/
theorem C4_alpha_fixed_at_five_percent (ppf : ℚ → ℚ) (E : Ext)
    (st0 : Chi2State) :
    test_residuals ppf E st0 = test_residuals_with_alpha (5/100) ppf E st0 := by
  rfl

/-- C5: with the Chi2Result already cached, a second `test_residuals`
call on the state produced by the first returns the identical
FrequencyRecord sequence (and the identical state). -/
theorem C5_idempotent_on_cached_result
    (ppf : ℚ → ℚ) (E : Ext) (st : Chi2State) (r : Chi2Raw × Mat × Mat)
    (st1 : Chi2State) (recs : List FrequencyRecord)
    (hc : st.results = some r)
    (h1 : test_residuals ppf E st = .ok (st1, recs)) :
    test_residuals ppf E st1 = .ok (st1, recs) := by
  have hbody : test_residuals ppf E st = test_residuals_core ppf st := by
    unfold test_residuals; rw [hc]
  rw [hbody] at h1
  obtain ⟨sres, hs, hlen, hrecs, hst'⟩ := test_residuals_core_ok h1
  have hr1 : st1.results = some r := by rw [hst']; exact hc
  have hbody1 : test_residuals ppf E st1 = test_residuals_core ppf st1 := by
    unfold test_residuals; rw [hr1]
  rw [hbody1, test_residuals_core_eq]
  have hs1 : st1._stdres = some sres := by rw [hst']; exact hs
  have hct1 : st1.crosstab = st.crosstab := by rw [hst']
  simp only [hs1, hct1, if_pos hlen, ← hrecs]
  rw [hst']
  simp [hs]

/-- Concrete instantiation of C5 on a cached state. -/
theorem C5_idempotent_on_cached_result_witness :
    stC.results = some (raw0, ([[3, 0], [1, -5]] : Mat),
      ([[3, 0], [1, -5]] : Mat)) ∧
    test_residuals ppf0 E0 stC' = Except.ok (stC', recsC) := by
  have hok : test_residuals ppf0 E0 stC = Except.ok (stC', recsC) := by
    norm_num [test_residuals, test_residuals_core, chi2_ind, _get_residuals,
      shiftZeros, hasZeroCell, stackRecords, sigList, recsOf,
      _test_single_residual, upper_zval, lower_zval, ppf0, E0, stC, stC',
      recsC, st0, ct0, raw0, init]
  exact ⟨rfl, C5_idempotent_on_cached_result ppf0 E0 stC
    (raw0, [[3, 0], [1, -5]], [[3, 0], [1, -5]]) stC' recsC rfl hok⟩

/-- C6: the Chi2Result is computed at most once per object. (a) With no
cached result, a successful `test_residuals` call has run `chi2_ind` and
the output state carries exactly its result as the cache. (b) With a
cached result, `test_residuals` does not invoke the external engine at
all — its outcome is the same for every engine — and the cached
Chi2Result is left unchanged in the output state. -/
theorem C6_lazy_call_once (ppf : ℚ → ℚ) (E E' : Ext) (st : Chi2State) :
    (st.results = none → ∀ st' recs,
      test_residuals ppf E st = .ok (st', recs) →
      ∃ p, chi2_ind E st = .ok p ∧ st'.results = some p.2) ∧
    (∀ r, st.results = some r →
      test_residuals ppf E st = test_residuals ppf E' st ∧
      (∀ st' recs, test_residuals ppf E st = .ok (st', recs) →
        st'.results = some r)) := by
  constructor
  · intro hn st' recs h
    unfold test_residuals at h
    rw [hn] at h
    cases hc : chi2_ind E st with
    | error e => rw [hc] at h; exact absurd h (by simp)
    | ok p =>
      rw [hc] at h
      obtain ⟨sres, hs, hlen, hrecs, hst'⟩ := test_residuals_core_ok h
      refine ⟨p, rfl, ?_⟩
      rw [hst']
      exact chi2_ind_ok_results hc
  · intro r hr
    have hb : test_residuals ppf E st = test_residuals_core ppf st := by
      unfold test_residuals; rw [hr]
    have hb' : test_residuals ppf E' st = test_residuals_core ppf st := by
      unfold test_residuals; rw [hr]
    refine ⟨hb.trans hb'.symm, ?_⟩
    intro st' recs h
    rw [hb] at h
    obtain ⟨sres, hs, hlen, hrecs, hst'⟩ := test_residuals_core_ok h
    rw [hst']
    exact hr

/-- Concrete instantiation of C6: the first-use auto-run on a fresh
state, and the engine-independence of a cached-state call (second engine
a failing one). -/
theorem C6_lazy_call_once_witness :
    st0F.results = some (raw0, ([[5, 10], [1, 3]] : Mat),
      ([[5, 10], [1, 3]] : Mat)) ∧
    test_residuals ppf0 E0 stC = test_residuals ppf0 Efail stC ∧
    stC'.results = some (raw0, ([[3, 0], [1, -5]] : Mat),
      ([[3, 0], [1, -5]] : Mat)) := by
  have hok0 : test_residuals ppf0 E0 st0 = Except.ok (st0F, recs0F) := by
    norm_num [test_residuals, test_residuals_core, chi2_ind, _get_residuals,
      shiftZeros, hasZeroCell, stackRecords, sigList, recsOf,
      _test_single_residual, upper_zval, lower_zval, ppf0, E0, st0F, st0chi,
      recs0F, st0, ct0, raw0, init]
  have hokC : test_residuals ppf0 E0 stC = Except.ok (stC', recsC) := by
    norm_num [test_residuals, test_residuals_core, chi2_ind, _get_residuals,
      shiftZeros, hasZeroCell, stackRecords, sigList, recsOf,
      _test_single_residual, upper_zval, lower_zval, ppf0, E0, stC, stC',
      recsC, st0, ct0, raw0, init]
  have ha := (C6_lazy_call_once ppf0 E0 Efail st0).1 rfl st0F recs0F hok0
  obtain ⟨p, hp1, hp2⟩ := ha
  have hcc : chi2_ind E0 st0 =
      Except.ok (st0chi, (raw0, [[5, 10], [1, 3]], [[5, 10], [1, 3]])) := by
    norm_num [chi2_ind, _get_residuals, shiftZeros, hasZeroCell, E0,
      st0chi, st0, ct0, raw0, init]
  rw [hcc] at hp1
  injection hp1 with hp1'
  rw [← hp1'] at hp2
  have hbC := (C6_lazy_call_once ppf0 E0 Efail stC).2
    (raw0, [[3, 0], [1, -5]], [[3, 0], [1, -5]]) rfl
  exact ⟨hp2, hbC.1, hbC.2 stC' recsC hokC⟩

/-- C7: with `shift_zeros` configured true and a zero cell present, the
0.5 shift is applied only to the residual computation: the chi-squared
engine (statistic, p-value, dof, expected frequencies) is run on the
original, unshifted crosstab, while both residual accessors are applied
to the table with 0.5 added to every cell. -/
theorem C7_shift_applies_only_to_residuals
    (E : Ext) (st : Chi2State) (raw : Chi2Raw)
    (hsz : st.shift_zeros = true)
    (hz : hasZeroCell st.crosstab.data = true)
    (heng : E.chi2_contingency st.crosstab.data st.correction st.lambda_ =
      .ok raw) :
    chi2_ind E st = .ok
      ({ st with
          results_chi2_ := some raw,
          _residuals := some (E.resid_pearson
            (st.crosstab.data.map (fun row => row.map (fun v => v + 1/2)))),
          _stdres := some (E.standardized_resids
            (st.crosstab.data.map (fun row => row.map (fun v => v + 1/2)))),
          results := some (raw,
            E.resid_pearson
              (st.crosstab.data.map (fun row => row.map (fun v => v + 1/2))),
            E.standardized_resids
              (st.crosstab.data.map (fun row => row.map (fun v => v + 1/2)))) },
       (raw,
        E.resid_pearson
          (st.crosstab.data.map (fun row => row.map (fun v => v + 1/2))),
        E.standardized_resids
          (st.crosstab.data.map (fun row => row.map (fun v => v + 1/2))))) := by
  have hshift : shiftZeros st.shift_zeros st.crosstab.data =
      st.crosstab.data.map (fun row => row.map (fun v => v + 1/2)) := by
    unfold shiftZeros
    rw [hsz, hz]
    simp
  unfold chi2_ind
  rw [heng]
  simp only [_get_residuals, hshift]

/-- Concrete instantiation of C7 on a shifted zero-cell table. -/
theorem C7_shift_applies_only_to_residuals_witness :
    stZ.shift_zeros = true ∧ hasZeroCell stZ.crosstab.data = true ∧
    chi2_ind E0 stZ = Except.ok
      ({ stZ with
          results_chi2_ := some rawZ,
          _residuals := some (E0.resid_pearson
            (stZ.crosstab.data.map (fun row => row.map (fun v => v + 1/2)))),
          _stdres := some (E0.standardized_resids
            (stZ.crosstab.data.map (fun row => row.map (fun v => v + 1/2)))),
          results := some (rawZ,
            E0.resid_pearson
              (stZ.crosstab.data.map (fun row => row.map (fun v => v + 1/2))),
            E0.standardized_resids
              (stZ.crosstab.data.map (fun row => row.map (fun v => v + 1/2)))) },
       (rawZ,
        E0.resid_pearson
          (stZ.crosstab.data.map (fun row => row.map (fun v => v + 1/2))),
        E0.standardized_resids
          (stZ.crosstab.data.map (fun row => row.map (fun v => v + 1/2))))) := by
  refine ⟨rfl, by norm_num [hasZeroCell, stZ, ctZ, init], ?_⟩
  exact C7_shift_applies_only_to_residuals E0 stZ rawZ rfl
    (by norm_num [hasZeroCell, stZ, ctZ, init]) rfl

/-- C8: when the external chi-squared engine fails, the error propagates
unchanged — same message — through `chi2_ind` and (on an object with no
cached result) through `test_residuals`; no record sequence is produced
and the object's state, including its derived `df_freq` collection, is
left exactly as it was. -/
theorem C8_upstream_error_propagates
    (ppf : ℚ → ℚ) (E : Ext) (st : Chi2State) (msg : String)
    (heng : E.chi2_contingency st.crosstab.data st.correction st.lambda_ =
      .error msg)
    (hres : st.results = none) :
    chi2_ind E st = .error (Err.upstream msg) ∧
    test_residuals ppf E st = .error (Err.upstream msg) ∧
    runOp ppf E Op.testResiduals st = st := by
  have h1 : chi2_ind E st = .error (Err.upstream msg) := by
    unfold chi2_ind; rw [heng]
  have h2 : test_residuals ppf E st = .error (Err.upstream msg) := by
    unfold test_residuals
    rw [hres, h1]
  refine ⟨h1, h2, ?_⟩
  unfold runOp
  rw [h2]

/-- Concrete instantiation of C8 with a failing engine on a fresh
object. -/
theorem C8_upstream_error_propagates_witness :
    Efail.chi2_contingency st0.crosstab.data st0.correction st0.lambda_ =
      Except.error "zero element in table of expected frequencies" ∧
    st0.results = none ∧
    test_residuals ppf0 Efail st0 =
      Except.error (Err.upstream
        "zero element in table of expected frequencies") ∧
    runOp ppf0 Efail Op.testResiduals st0 = st0 := by
  have h := C8_upstream_error_propagates ppf0 Efail st0
    "zero element in table of expected frequencies" rfl rfl
  exact ⟨rfl, rfl, h.2.1, h.2.2⟩

/-- A successful `test_residuals` leaves the crosstab unchanged. -/
theorem test_residuals_ok_crosstab {ppf : ℚ → ℚ} {E : Ext}
    {st0 st' : Chi2State} {recs : List FrequencyRecord}
    (h : test_residuals ppf E st0 = .ok (st', recs)) :
    st'.crosstab = st0.crosstab := by
  obtain ⟨st1, hct, hcore⟩ := test_residuals_ok_core h
  obtain ⟨sres, _, _, _, hst'⟩ := test_residuals_core_ok hcore
  rw [hst']
  exact hct

/-- A successful `plot` leaves the crosstab unchanged. -/
theorem plot_ok_crosstab {ppf : ℚ → ℚ} {E : Ext} {st0 s : Chi2State}
    (h : plot ppf E st0 = .ok s) : s.crosstab = st0.crosstab := by
  unfold plot at h
  cases hd : st0.df_freq with
  | some d =>
    rw [hd] at h
    injection h with h1
    rw [← h1]
  | none =>
    rw [hd] at h
    cases hc : test_residuals ppf E st0 with
    | error e => rw [hc] at h; exact absurd h (by simp)
    | ok p =>
      rw [hc] at h
      injection h with h1
      rw [← h1]
      exact test_residuals_ok_crosstab
        (show test_residuals ppf E st0 = .ok (p.1, p.2) from hc)

/-- Every single operation, succeed or raise, preserves the crosstab. -/
theorem runOp_crosstab (ppf : ℚ → ℚ) (E : Ext) (op : Op) (st : Chi2State) :
    (runOp ppf E op st).crosstab = st.crosstab := by
  cases op with
  | chi2Ind =>
    unfold runOp
    cases hc : chi2_ind E st with
    | ok p => simp only []; exact chi2_ind_ok_crosstab hc
    | error e => simp only []
  | testResiduals =>
    unfold runOp
    cases hc : test_residuals ppf E st with
    | ok p =>
      simp only []
      exact test_residuals_ok_crosstab
        (show test_residuals ppf E st = .ok (p.1, p.2) from hc)
    | error e => simp only []
  | plotOp =>
    unfold runOp
    cases hc : plot ppf E st with
    | ok s => simp only []; exact plot_ok_crosstab hc
    | error e => simp only []

/-- C10: the contingency table is immutable after construction: for
every sequence of `chi2_ind` / `test_residuals` / `plot` calls on an
object built by the constructor, the stored crosstab still equals the
one passed to the constructor. -/
theorem C10_crosstab_immutable_under_all_ops
    (ppf : ℚ → ℚ) (E : Ext) (ops : List Op) (crosstab : Crosstab)
    (correction : Bool) (lambda_ : Option ℚ) (shift_zeros : Bool) :
    (runOps ppf E ops (init crosstab correction lambda_ shift_zeros)).crosstab
      = crosstab := by
  have hstep : ∀ (ops : List Op) (st : Chi2State),
      (runOps ppf E ops st).crosstab = st.crosstab := by
    intro ops
    induction ops with
    | nil => intro st; rfl
    | cons op rest ih =>
      intro st
      show (runOps ppf E rest (runOp ppf E op st)).crosstab = st.crosstab
      rw [ih (runOp ppf E op st), runOp_crosstab]
  exact hstep ops _

end Statplot
